import Mathlib

set_option maxRecDepth 4000

/-!
Verification of `birthday.py`, a command-line birthday/anniversary reminder.

The development shallowly embeds the program: the Gregorian calendar arithmetic
of Python's `datetime.date` (construction validity, ordering, day differences),
the regex-based date-token matcher, the per-line parser, and the two output
modes (`list` and `summary`) of `main`.  Machine strings are `String` /
`List Char`; calendar quantities are `Nat` / `Int`.
-/

namespace Birthday

/-! ### Calendar model (Python `datetime.date`) -/

/-- Gregorian leap-year test, as in CPython's `datetime._is_leap`. -/
def isLeap (y : Nat) : Bool :=
  y % 4 == 0 && (y % 100 != 0 || y % 400 == 0)

/-- Length of month `m` of year `y`; `0` for out-of-range months. -/
def daysInMonth (y m : Nat) : Nat :=
  match m with
  | 1 => 31
  | 2 => if isLeap y then 29 else 28
  | 3 => 31
  | 4 => 30
  | 5 => 31
  | 6 => 30
  | 7 => 31
  | 8 => 31
  | 9 => 30
  | 10 => 31
  | 11 => 30
  | 12 => 31
  | _ => 0

/-- Days in the non-leap-year months strictly before month `m`
(CPython's `_DAYS_BEFORE_MONTH` table). -/
def daysBeforeMonthTable (m : Nat) : Nat :=
  match m with
  | 1 => 0
  | 2 => 31
  | 3 => 59
  | 4 => 90
  | 5 => 120
  | 6 => 151
  | 7 => 181
  | 8 => 212
  | 9 => 243
  | 10 => 273
  | 11 => 304
  | 12 => 334
  | _ => 0

/-- Days in year `y` strictly before month `m`
(CPython's `_days_before_month`: table plus a leap adjustment after February). -/
def daysBeforeMonth (y m : Nat) : Nat :=
  daysBeforeMonthTable m + (if 2 < m && isLeap y then 1 else 0)

/-- Number of days in year `y`. -/
def daysInYear (y : Nat) : Nat :=
  if isLeap y then 366 else 365

/-- Days in all years strictly before year `y` (an epoch-shifted ordinal base;
only differences of ordinals are ever used, so the epoch is irrelevant). -/
def daysBeforeYear : Nat → Nat
  | 0 => 0
  | y + 1 => daysBeforeYear y + daysInYear y

/-- A calendar date as held by `datetime.date`: year, month, day fields. -/
structure Date where
  year : Nat
  month : Nat
  day : Nat
deriving DecidableEq, Repr

/-- Ordinal of a date: days elapsed from a fixed epoch.  Differences of
ordinals model Python's `(a - b).days`. -/
def ord (d : Date) : Nat :=
  daysBeforeYear d.year + daysBeforeMonth d.year d.month + d.day

/-- The field validity enforced by the `datetime.date` constructor:
`MINYEAR = 1 ≤ year ≤ MAXYEAR = 9999`, `1 ≤ month ≤ 12`,
`1 ≤ day ≤` length of the month. -/
def validDate (y m d : Nat) : Bool :=
  1 ≤ y && y ≤ 9999 && 1 ≤ m && m ≤ 12 && 1 ≤ d && d ≤ daysInMonth y m

/-- `datetime.date(y, m, d)`: `none` models the constructor raising
`ValueError`. -/
def mkDate (y m d : Nat) : Option Date :=
  if validDate y m d then some ⟨y, m, d⟩ else none

/-- Python `date.__lt__`: lexicographic comparison of (year, month, day). -/
def dateLt (a b : Date) : Bool :=
  a.year < b.year ||
    (a.year == b.year &&
      (a.month < b.month || (a.month == b.month && a.day < b.day)))

/-! ### Line scanning (`parse`, lines 33–47 of `birthday.py`) -/

/-- ASCII whitespace as recognised by Python's `str.split`/`str.strip`
with no argument. -/
def isWS (c : Char) : Bool :=
  c == ' ' || c == '\t' || c == '\n' || c == '\x0d' || c == '\x0b' || c == '\x0c'

/-- `line[:line.find('#')]` when `'#' in line`, else `line` unchanged:
both cases equal the characters strictly before the first `'#'`. -/
def stripComment (s : List Char) : List Char :=
  s.takeWhile (fun c => c != '#')

/-- Python `str.strip()`: drop leading and trailing whitespace. -/
def pyStrip (s : List Char) : List Char :=
  ((s.dropWhile isWS).reverse.dropWhile isWS).reverse

/-- Python `line.split(None, 1)` followed by unpacking into two variables:
`none` models the `ValueError` raised when there is no second part. -/
def splitOnce (s : List Char) : Option (List Char × List Char) :=
  let tok := s.takeWhile (fun c => !isWS c)
  let rest := (s.dropWhile (fun c => !isWS c)).dropWhile isWS
  if rest.isEmpty then none else some (tok, rest)

/-! ### Date-token matching (`DATE_YMD`, `DATE_MD`, lines 23–24 and 49–60) -/

/-- `int()` of a digit string. -/
def digitsToNat (s : List Char) : Nat :=
  s.foldl (fun n c => 10 * n + (c.toNat - 48)) 0

/-- `DATE_YMD.match(date)` where
`DATE_YMD = re.compile('([0-9]{1,4})-([0-9]{1,2})-([0-9]{1,2})')`,
returning the three groups as numbers.  `re.match` anchors only at the start
of the string, so trailing text is ignored.  Each greedy bounded digit group
followed by a literal `'-'` matches exactly when the maximal digit run at
that position has length within the bound and is followed by `'-'`
(backtracking inside a digit run can never expose a `'-'`); the final group
captures the first `min(2, run)` digits and needs no following character. -/
def matchYMD (s : List Char) : Option (Nat × Nat × Nat) :=
  let a := s.takeWhile Char.isDigit
  let r1 := s.dropWhile Char.isDigit
  if 1 ≤ a.length ∧ a.length ≤ 4 then
    match r1 with
    | '-' :: r2 =>
      let b := r2.takeWhile Char.isDigit
      let r3 := r2.dropWhile Char.isDigit
      if 1 ≤ b.length ∧ b.length ≤ 2 then
        match r3 with
        | '-' :: r4 =>
          let c := (r4.takeWhile Char.isDigit).take 2
          if 1 ≤ c.length then
            some (digitsToNat a, digitsToNat b, digitsToNat c)
          else none
        | _ => none
      else none
    | _ => none
  else none

/-- `DATE_MD.match(date)` where `DATE_MD = re.compile('([0-9]{1,2})-([0-9]{1,2})')`,
with the same `re.match` semantics as `matchYMD`. -/
def matchMD (s : List Char) : Option (Nat × Nat) :=
  let a := s.takeWhile Char.isDigit
  let r1 := s.dropWhile Char.isDigit
  if 1 ≤ a.length ∧ a.length ≤ 2 then
    match r1 with
    | '-' :: r2 =>
      let b := (r2.takeWhile Char.isDigit).take 2
      if 1 ≤ b.length then some (digitsToNat a, digitsToNat b) else none
    | _ => none
  else none

/-- Lines 51–60 of `parse`: try the full form first, fall back to the
recurring form (year sentinel `-1`), else a malformed-date error (`none`). -/
def parseDateToken (tok : List Char) : Option (Int × Nat × Nat) :=
  match matchYMD tok with
  | some (y, m, d) => some ((y : Int), m, d)
  | none =>
    match matchMD tok with
    | some (m, d) => some (-1, m, d)
    | none => none

/-! ### Events and per-line parsing -/

/-- The `Event` namedtuple: `days`, `desc`, `when`. -/
structure Event where
  days : Int
  desc : String
  when : Date
deriving DecidableEq, Repr

/-- The `ValueError`s that the `try` block of `parse` can catch. -/
inductive ParseErr where
  /-- `not enough values to unpack` from `date, description = line.split(None, 1)`. -/
  | unpack : ParseErr
  /-- `raise ValueError(f'Malformed date: "{date}"')`. -/
  | malformedDate (tok : String) : ParseErr
  /-- `ValueError` raised by `datetime.date(y, m, d)`. -/
  | badDate (y m d : Nat) : ParseErr
deriving DecidableEq, Repr

/-- The message text of each `ValueError` (CPython wording for the
constructor errors, checked in the order year, month, day). -/
def renderErr : ParseErr → String
  | .unpack => "not enough values to unpack (expected 2, got 1)"
  | .malformedDate t => "Malformed date: \"" ++ t ++ "\""
  | .badDate y m d =>
    if !(1 ≤ y && y ≤ 9999) then "year " ++ toString y ++ " is out of range"
    else if !(1 ≤ m && m ≤ 12) then "month must be in 1..12"
    else if !(1 ≤ d && d ≤ daysInMonth y m) then "day is out of range for month"
    else ""

/-- Outcome of processing one input line inside the loop of `parse`. -/
inductive LineResult where
  | skip : LineResult
  | event (e : Event) : LineResult
  | error (e : ParseErr) : LineResult
deriving DecidableEq, Repr

/-- Lines 49–75 of `parse`, after the line has been split into the date
token and the description: regex match, candidate construction, year
rollover, day count, elapsed-years suffix. -/
def parseTokenRest (R : Date) (tok rest : List Char) : LineResult :=
  match parseDateToken tok with
  | none => .error (.malformedDate (String.mk tok))
  | some (y, m, d) =>
    match mkDate R.year m d with
    | none => .error (.badDate R.year m d)
    | some c =>
      match (if dateLt c R then mkDate (R.year + 1) m d else some c) with
      | none => .error (.badDate (R.year + 1) m d)
      | some w =>
        let days : Int := (ord w : Int) - (ord R : Int)
        let dsc : String :=
          if 0 < y then
            String.mk rest ++ " (" ++ toString ((w.year : Int) - y) ++ ")"
          else String.mk rest
        .event ⟨days, dsc, w⟩

/-- One iteration of the loop of `parse` on a single input line:
comment stripping, whitespace trimming, empty-line skip, then the
`try` block (split and date handling). -/
def parseLine (R : Date) (line : String) : LineResult :=
  let l := pyStrip (stripComment line.data)
  if l.isEmpty then .skip
  else
    match splitOnce l with
    | none => .error .unpack
    | some (tok, rest) => parseTokenRest R tok rest

/-- The loop of `parse` starting at line number `n`: the yielded events in
order, and the diagnostics `(lineno, error)` printed for failing lines. -/
def parseFrom (R : Date) : Nat → List String → List Event × List (Nat × ParseErr)
  | _, [] => ([], [])
  | n, l :: ls =>
    let rec_ := parseFrom R (n + 1) ls
    match parseLine R l with
    | .skip => rec_
    | .event e => (e :: rec_.1, rec_.2)
    | .error err => (rec_.1, (n, err) :: rec_.2)

/-- `parse(fileobj, reference_date)` over the file's lines, with `enumerate`
starting line numbers at 1. -/
def parse (R : Date) (lines : List String) : List Event × List (Nat × ParseErr) :=
  parseFrom R 1 lines

/-- A diagnostic as printed: `print(f'{lineno}: {e}')`. -/
def renderDiag (p : Nat × ParseErr) : String :=
  toString p.1 ++ ": " ++ renderErr p.2

/-- Exhausting the generator `parse`: the events when no line failed, or the
`SystemExit('Error parsing input file.')` raised after the loop otherwise.
A consumer that hits the exception never sees the (partial) event list. -/
def loadEvents (R : Date) (lines : List String) : Except String (List Event) :=
  if (parse R lines).2.isEmpty then .ok (parse R lines).1
  else .error "Error parsing input file."

/-! ### Output rendering and the two modes of `main` -/

/-- Zero-pad a number to (at least) two digits, as `f'{n:02}'`. -/
def pad2 (n : Nat) : String :=
  if n < 10 then "0" ++ toString n else toString n

/-- Zero-pad a number to (at least) four digits. -/
def pad4 (n : Nat) : String :=
  if n < 10 then "000" ++ toString n
  else if n < 100 then "00" ++ toString n
  else if n < 1000 then "0" ++ toString n
  else toString n

/-- `str(datetime.date)`: ISO format `YYYY-MM-DD`. -/
def formatDate (d : Date) : String :=
  pad4 d.year ++ "-" ++ pad2 d.month ++ "-" ++ pad2 d.day

/-- `describe(days, desc, when)` of `main` (list mode), lines 134–144. -/
def describe (days : Int) (desc : String) (w : Date) : String :=
  let t :=
    if days = 0 then "today"
    else if days = 1 then "tomorrow"
    else
      "in " ++ toString days ++ " days" ++
        (if 3 ≤ days then " (" ++ formatDate w ++ ")" else "")
  desc ++ " " ++ t

/-- The list-mode filter: `not advance_days or event.days in advance_days`. -/
def listSelect (advance : List Int) (e : Event) : Bool :=
  advance.isEmpty || advance.contains e.days

/-- Sort key of `events.sort(key=lambda e: e.days)`: non-decreasing `days`. -/
def daysLe (a b : Event) : Prop :=
  a.days ≤ b.days

instance : DecidableRel daysLe := fun a b => inferInstanceAs (Decidable (a.days ≤ b.days))

instance : IsTotal Event daysLe := ⟨fun a b => Int.le_total a.days b.days⟩

instance : IsTrans Event daysLe := ⟨fun _ _ _ h1 h2 => le_trans h1 h2⟩

/-- Sort key of `events.sort(key=lambda e: e.when)`: non-decreasing date. -/
def whenLe (a b : Event) : Prop :=
  dateLt b.when a.when = false

instance : DecidableRel whenLe :=
  fun a b => inferInstanceAs (Decidable (dateLt b.when a.when = false))

instance : IsTotal Event whenLe :=
  ⟨fun a b => by
    unfold whenLe
    cases hx : dateLt b.when a.when
    · exact Or.inl rfl
    · cases hy : dateLt a.when b.when
      · exact Or.inr rfl
      · exfalso
        simp [dateLt] at hx hy
        omega⟩

instance : IsTrans Event whenLe :=
  ⟨fun a b c h1 h2 => by
    unfold whenLe at h1 h2 ⊢
    simp [dateLt] at h1 h2 ⊢
    omega⟩

/-- The list-mode branch of `main` (lines 117–147): load, filter by requested
day offsets, sort by `days`, apply the positive limit, render.  The result is
the printed lines (after the parse diagnostics) and the exit status. -/
def runList (R : Date) (lines : List String) (advance : List Int) (limit : Int) :
    List String × Nat :=
  match loadEvents R lines with
  | .error _ => ([], 1)
  | .ok evs =>
    let kept := evs.filter (listSelect advance)
    let sorted := List.insertionSort daysLe kept
    let capped := if 0 < limit then sorted.take limit.toNat else sorted
    (capped.map (fun e => describe e.days e.desc e.when), 0)

/-- The summary-mode filter: `event.when.month == month and event.when.year == year`. -/
def summarySelect (year month : Nat) (e : Event) : Bool :=
  e.when.month == month && e.when.year == year

/-- `f'No events in {year}-{month:02}'`. -/
def noEventsLine (year month : Nat) : String :=
  "No events in " ++ toString year ++ "-" ++ pad2 month

/-- The summary-mode branch of `main` (lines 91–115): the reference date is
the first day of the target month; load, keep events whose occurrence falls
in the target month and year, sort by date, render (or the single
no-events line). -/
def runSummary (year month : Nat) (lines : List String) : List String × Nat :=
  match loadEvents ⟨year, month, 1⟩ lines with
  | .error _ => ([], 1)
  | .ok evs =>
    let matched := evs.filter (summarySelect year month)
    let sorted := List.insertionSort whenLe matched
    (if matched.isEmpty then [noEventsLine year month]
     else sorted.map (fun e => formatDate e.when ++ ": " ++ e.desc), 0)

/-! ### Spec-side date-token shapes (for the date-format claims)

These definitions follow the specification's words, not the code: a token
exactly of the full or recurring form, and a token some prefix of which
matches the form (the latter is what `re.match` actually tests). -/

/-- All characters are ASCII digits. -/
def allDigits (s : List Char) : Bool :=
  s.all Char.isDigit

/-- Split a token at every `'-'` (the groups between the dashes, in order):
`splitDashes "1-2-3x" = ["1", "2", "3x"]` as character lists. -/
def splitDashes (s : List Char) : List (List Char) :=
  match s with
  | [] => [[]]
  | '-' :: t => [] :: splitDashes t
  | c :: t =>
    match splitDashes t with
    | [] => [[c]]
    | g :: gs => (c :: g) :: gs

/-- Spec-side: the token is exactly of the full form `YEAR-MONTH-DAY`
(year 1–4 digits, month/day 1–2 digits), nothing more. -/
def exactYMD (s : String) : Bool :=
  match splitDashes s.data with
  | [a, b, c] =>
    allDigits a && 1 ≤ a.length && a.length ≤ 4 &&
    allDigits b && 1 ≤ b.length && b.length ≤ 2 &&
    allDigits c && 1 ≤ c.length && c.length ≤ 2
  | _ => false

/-- Spec-side: the token is exactly of the recurring form `MONTH-DAY`
(month/day 1–2 digits), nothing more. -/
def exactMD (s : String) : Bool :=
  match splitDashes s.data with
  | [a, b] =>
    allDigits a && 1 ≤ a.length && a.length ≤ 2 &&
    allDigits b && 1 ≤ b.length && b.length ≤ 2
  | _ => false

/-- Some prefix of the token matches `([0-9]{1,4})-([0-9]{1,2})-([0-9]{1,2})`. -/
def ymdShape (s : List Char) : Prop :=
  ∃ a b c rest,
    s = a ++ '-' :: (b ++ '-' :: (c :: rest)) ∧
    allDigits a = true ∧ 1 ≤ a.length ∧ a.length ≤ 4 ∧
    allDigits b = true ∧ 1 ≤ b.length ∧ b.length ≤ 2 ∧
    c.isDigit = true

/-- Some prefix of the token matches `([0-9]{1,2})-([0-9]{1,2})`. -/
def mdShape (s : List Char) : Prop :=
  ∃ a c rest,
    s = a ++ '-' :: (c :: rest) ∧
    allDigits a = true ∧ 1 ≤ a.length ∧ a.length ≤ 2 ∧
    c.isDigit = true

/-! ### Calendar arithmetic lemmas -/

lemma isLeap_eq_true_iff (y : Nat) :
    isLeap y = true ↔ (y % 4 = 0 ∧ (y % 100 ≠ 0 ∨ y % 400 = 0)) := by
  simp [isLeap]

lemma isLeap_succ (y : Nat) (h : isLeap y = true) : isLeap (y + 1) = false := by
  rw [isLeap_eq_true_iff] at h
  cases hx : isLeap (y + 1) with
  | false => rfl
  | true => rw [isLeap_eq_true_iff] at hx; omega

lemma validDate_iff (y m d : Nat) :
    validDate y m d = true ↔
      (1 ≤ y ∧ y ≤ 9999 ∧ 1 ≤ m ∧ m ≤ 12 ∧ 1 ≤ d ∧ d ≤ daysInMonth y m) := by
  simp [validDate, and_assoc]

lemma dateLt_iff (a b : Date) :
    dateLt a b = true ↔
      (a.year < b.year ∨
        (a.year = b.year ∧
          (a.month < b.month ∨ (a.month = b.month ∧ a.day < b.day)))) := by
  simp [dateLt]

lemma dateLt_eq_false_iff (a b : Date) :
    dateLt a b = false ↔
      ¬(a.year < b.year ∨
        (a.year = b.year ∧
          (a.month < b.month ∨ (a.month = b.month ∧ a.day < b.day)))) := by
  rw [← dateLt_iff]
  cases dateLt a b <;> simp

lemma dbm_dim_le (y : Nat) {m1 m2 : Nat} (h1 : 1 ≤ m1) (h2 : m1 < m2) (h3 : m2 ≤ 12) :
    daysBeforeMonth y m1 + daysInMonth y m1 ≤ daysBeforeMonth y m2 := by
  cases hL : isLeap y <;>
    (interval_cases m2 <;> interval_cases m1 <;>
      simp_all [daysBeforeMonth, daysBeforeMonthTable, daysInMonth])

lemma dbm_le_diy (y : Nat) {m d : Nat} (h1 : 1 ≤ m) (h2 : m ≤ 12)
    (h3 : d ≤ daysInMonth y m) :
    daysBeforeMonth y m + d ≤ daysInYear y := by
  cases hL : isLeap y <;>
    (interval_cases m <;>
      simp_all [daysBeforeMonth, daysBeforeMonthTable, daysInMonth, daysInYear]) <;>
    omega

lemma dby_succ (y : Nat) : daysBeforeYear (y + 1) = daysBeforeYear y + daysInYear y := rfl

lemma dby_mono {a b : Nat} (h : a ≤ b) : daysBeforeYear a ≤ daysBeforeYear b := by
  induction b with
  | zero => simp [Nat.le_zero.mp h]
  | succ n ih =>
    rcases Nat.lt_or_ge a (n + 1) with h1 | h2
    · have := ih (by omega)
      rw [dby_succ]
      omega
    · have ha : a = n + 1 := by omega
      rw [ha]

lemma ord_lt_of_dateLt {a b : Date} (ha : validDate a.year a.month a.day = true)
    (hb : validDate b.year b.month b.day = true) (h : dateLt a b = true) :
    ord a < ord b := by
  rw [validDate_iff] at ha hb
  rw [dateLt_iff] at h
  unfold ord
  rcases h with h | ⟨hy, h⟩
  · have h1 : daysBeforeMonth a.year a.month + a.day ≤ daysInYear a.year :=
      dbm_le_diy a.year ha.2.2.1 ha.2.2.2.1 ha.2.2.2.2.2
    have h2 : daysBeforeYear a.year + daysInYear a.year ≤ daysBeforeYear b.year := by
      have h3 : daysBeforeYear (a.year + 1) ≤ daysBeforeYear b.year := dby_mono (by omega)
      rw [dby_succ] at h3
      omega
    omega
  · rw [← hy]
    rcases h with h | ⟨hm, hd⟩
    · have h1 : daysBeforeMonth a.year a.month + daysInMonth a.year a.month ≤
          daysBeforeMonth a.year b.month :=
        dbm_dim_le a.year ha.2.2.1 h hb.2.2.2.1
      have h2 : a.day ≤ daysInMonth a.year a.month := ha.2.2.2.2.2
      omega
    · rw [← hm]
      omega

lemma ord_le_of_dateLt_eq_false {a b : Date} (ha : validDate a.year a.month a.day = true)
    (hb : validDate b.year b.month b.day = true) (h : dateLt a b = false) :
    ord b ≤ ord a := by
  have htri : dateLt b a = true ∨ (a.year = b.year ∧ a.month = b.month ∧ a.day = b.day) := by
    rw [dateLt_eq_false_iff] at h
    rw [dateLt_iff]
    omega
  rcases htri with h1 | ⟨h1, h2, h3⟩
  · exact le_of_lt (ord_lt_of_dateLt hb ha h1)
  · unfold ord
    rw [h1, h2, h3]

lemma mkDate_some_inv {y m d : Nat} {w : Date} (h : mkDate y m d = some w) :
    w = ⟨y, m, d⟩ ∧ validDate y m d = true := by
  unfold mkDate at h
  split at h
  · exact ⟨(Option.some.inj h).symm, by assumption⟩
  · exact absurd h (by simp)

lemma daysInYear_le (y : Nat) : daysInYear y ≤ 366 := by
  unfold daysInYear
  split <;> omega

/-- Core day-count bound: for a valid reference date, the occurrence chosen
by the candidate/rollover logic of `parse` is on or after the reference and
at most 365 days away. -/
lemma occurrence_bounds {R c w : Date} {m d : Nat}
    (hR : validDate R.year R.month R.day = true)
    (hc : mkDate R.year m d = some c)
    (hw : (if dateLt c R then mkDate (R.year + 1) m d else some c) = some w) :
    ord R ≤ ord w ∧ (ord w : Int) - ord R ≤ 365 ∧ dateLt w R = false := by
  obtain ⟨hceq, hcv⟩ := mkDate_some_inv hc
  subst hceq
  have hvR := (validDate_iff _ _ _).mp hR
  have hvc := (validDate_iff _ _ _).mp hcv
  have hRbound : daysBeforeMonth R.year R.month + R.day ≤ daysInYear R.year :=
    dbm_le_diy R.year hvR.2.2.1 hvR.2.2.2.1 hvR.2.2.2.2.2
  by_cases hlt : dateLt ⟨R.year, m, d⟩ R = true
  · rw [if_pos hlt] at hw
    obtain ⟨hweq, hwv⟩ := mkDate_some_inv hw
    have hvw := (validDate_iff _ _ _).mp hwv
    have hclt : ord ⟨R.year, m, d⟩ < ord R := ord_lt_of_dateLt hcv hR hlt
    have hordw : ord w =
        daysBeforeYear R.year + daysInYear R.year +
          daysBeforeMonth (R.year + 1) m + d := by
      rw [hweq]
      unfold ord
      rw [dby_succ]
    have hordc : ord ⟨R.year, m, d⟩ =
        daysBeforeYear R.year + daysBeforeMonth R.year m + d := rfl
    have hordR : ord R =
        daysBeforeYear R.year + daysBeforeMonth R.year R.month + R.day := rfl
    have hwlt : dateLt w R = false := by
      rw [hweq, dateLt_eq_false_iff]
      simp only
      omega
    refine ⟨?_, ?_, hwlt⟩
    · omega
    · have e0 : daysBeforeMonth R.year m =
          daysBeforeMonthTable m + (if 2 < m && isLeap R.year then 1 else 0) := rfl
      have e1 : daysBeforeMonth (R.year + 1) m =
          daysBeforeMonthTable m + (if 2 < m && isLeap (R.year + 1) then 1 else 0) := rfl
      cases hL : isLeap R.year with
      | true =>
        have hL1 : isLeap (R.year + 1) = false := isLeap_succ _ hL
        have hA1 : (if 2 < m && isLeap (R.year + 1) then 1 else 0) = 0 := by
          rw [hL1]; simp
        have hdy : daysInYear R.year = 366 := by unfold daysInYear; rw [hL]; rfl
        rw [e1, hA1] at hordw
        rw [e0] at hordc
        omega
      | false =>
        have hdy : daysInYear R.year = 365 := by unfold daysInYear; rw [hL]; rfl
        have hA1 : (if 2 < m && isLeap (R.year + 1) then 1 else 0) ≤ 1 := by
          split <;> omega
        rw [e1] at hordw
        rw [e0] at hordc
        omega
  · have hlt' : dateLt ⟨R.year, m, d⟩ R = false := by
      cases hx : dateLt ⟨R.year, m, d⟩ R
      · rfl
      · exact absurd hx hlt
    rw [if_neg (by rw [hlt']; simp)] at hw
    have hweq : w = ⟨R.year, m, d⟩ := (Option.some.inj hw).symm
    subst hweq
    have hge : ord R ≤ ord ⟨R.year, m, d⟩ := ord_le_of_dateLt_eq_false hcv hR hlt'
    have hcbound : daysBeforeMonth R.year m + d ≤ daysInYear R.year :=
      dbm_le_diy R.year hvc.2.2.1 hvc.2.2.2.1 hvc.2.2.2.2.2
    have hordc : ord ⟨R.year, m, d⟩ =
        daysBeforeYear R.year + daysBeforeMonth R.year m + d := rfl
    have hordR : ord R =
        daysBeforeYear R.year + daysBeforeMonth R.year R.month + R.day := rfl
    have := daysInYear_le R.year
    refine ⟨hge, by omega, hlt'⟩

/-! ### Per-line parsing inversion lemmas -/

lemma parseTokenRest_event_inv {R : Date} {tok rest : List Char} {ev : Event}
    (h : parseTokenRest R tok rest = .event ev) :
    ∃ y m d c,
      parseDateToken tok = some (y, m, d) ∧
      mkDate R.year m d = some c ∧
      (if dateLt c R then mkDate (R.year + 1) m d else some c) = some ev.when ∧
      ev.days = (ord ev.when : Int) - (ord R : Int) ∧
      ev.desc = (if 0 < y then
          String.mk rest ++ " (" ++ toString ((ev.when.year : Int) - y) ++ ")"
        else String.mk rest) := by
  unfold parseTokenRest at h
  split at h
  · exact absurd h (by simp)
  next y m d htok =>
    split at h
    · exact absurd h (by simp)
    next c hc =>
      split at h
      · exact absurd h (by simp)
      next w hw =>
        simp only [LineResult.event.injEq] at h
        refine ⟨y, m, d, c, htok, hc, ?_, ?_, ?_⟩
        · rw [← h]
          exact hw
        · rw [← h]
        · rw [← h]

lemma parseLine_event_inv {R : Date} {line : String} {ev : Event}
    (h : parseLine R line = .event ev) :
    ∃ tok rest,
      splitOnce (pyStrip (stripComment line.data)) = some (tok, rest) ∧
      parseTokenRest R tok rest = .event ev := by
  simp only [parseLine] at h
  split at h
  · exact absurd h (by simp)
  · split at h
    · exact absurd h (by simp)
    next tok rest hs => exact ⟨tok, rest, hs, h⟩

/-! ### Aggregate parsing lemmas -/

lemma parseFrom_events_mem {R : Date} {ev : Event} :
    ∀ {n : Nat} {ls : List String}, ev ∈ (parseFrom R n ls).1 →
      ∃ l ∈ ls, parseLine R l = .event ev := by
  intro n ls
  induction ls generalizing n with
  | nil => intro h; exact absurd h (by simp [parseFrom])
  | cons l ls ih =>
    intro h
    unfold parseFrom at h
    rcases hl : parseLine R l with _ | e | err <;> rw [hl] at h
    · obtain ⟨l2, hm, he⟩ := ih h
      exact ⟨l2, List.mem_cons_of_mem _ hm, he⟩
    · rcases List.mem_cons.mp h with h1 | h1
      · exact ⟨l, List.mem_cons_self _ _, by rw [hl, h1]⟩
      · obtain ⟨l2, hm, he⟩ := ih h1
        exact ⟨l2, List.mem_cons_of_mem _ hm, he⟩
    · obtain ⟨l2, hm, he⟩ := ih h
      exact ⟨l2, List.mem_cons_of_mem _ hm, he⟩

lemma parseFrom_diag_of_error {R : Date} {e : ParseErr} :
    ∀ {n i : Nat} {ls : List String} (hi : i < ls.length),
      parseLine R (ls.get ⟨i, hi⟩) = .error e →
      (n + i, e) ∈ (parseFrom R n ls).2 := by
  intro n i ls
  induction ls generalizing n i with
  | nil => intro hi; exact absurd hi (by simp)
  | cons l ls ih =>
    intro hi hl
    unfold parseFrom
    cases i with
    | zero =>
      simp only [List.get] at hl
      rw [hl]
      simp
    | succ j =>
      simp only [List.get] at hl
      have hj : j < ls.length := by simpa using hi
      have hmem := ih (n := n + 1) hj hl
      have harith : n + 1 + j = n + (j + 1) := by omega
      rw [harith] at hmem
      rcases hx : parseLine R l with _ | ev | err <;> simp [hx, hmem]

lemma parseFrom_diag_sound {R : Date} :
    ∀ {n : Nat} {ls : List String} {p : Nat × ParseErr},
      p ∈ (parseFrom R n ls).2 →
      ∃ l ∈ ls, parseLine R l = .error p.2 := by
  intro n ls
  induction ls generalizing n with
  | nil => intro p h; exact absurd h (by simp [parseFrom])
  | cons l ls ih =>
    intro p h
    unfold parseFrom at h
    rcases hl : parseLine R l with _ | ev | err <;> rw [hl] at h
    · obtain ⟨l2, hm, he⟩ := ih h
      exact ⟨l2, List.mem_cons_of_mem _ hm, he⟩
    · obtain ⟨l2, hm, he⟩ := ih h
      exact ⟨l2, List.mem_cons_of_mem _ hm, he⟩
    · rcases List.mem_cons.mp h with h1 | h1
      · exact ⟨l, List.mem_cons_self _ _, by rw [hl, h1]⟩
      · obtain ⟨l2, hm, he⟩ := ih h1
        exact ⟨l2, List.mem_cons_of_mem _ hm, he⟩

lemma loadEvents_ok_iff {R : Date} {lines : List String} :
    (∃ evs, loadEvents R lines = .ok evs) ↔ (parse R lines).2 = [] := by
  unfold loadEvents
  split
  next h =>
    rw [List.isEmpty_iff] at h
    simp [h]
  next h =>
    constructor
    · rintro ⟨evs, hevs⟩
      simp at hevs
    · intro h2
      exact absurd (by rw [h2]; rfl : (parse R lines).2.isEmpty = true) h

lemma loadEvents_error_of_diag {R : Date} {lines : List String}
    (h : (parse R lines).2 ≠ []) :
    loadEvents R lines = .error "Error parsing input file." := by
  unfold loadEvents
  rw [if_neg]
  simpa [List.isEmpty_iff] using h

lemma loadEvents_error_of_mem {R : Date} {lines : List String} {l : String} {e : ParseErr}
    (hm : l ∈ lines) (he : parseLine R l = .error e) :
    loadEvents R lines = .error "Error parsing input file." := by
  obtain ⟨i, hget⟩ := List.mem_iff_get.mp hm
  have he2 : parseLine R (lines.get i) = .error e := by rw [hget]; exact he
  have hd : (1 + i.1, e) ∈ (parse R lines).2 :=
    parseFrom_diag_of_error i.2 he2
  unfold loadEvents
  split
  next h =>
    rw [List.isEmpty_iff] at h
    rw [h] at hd
    exact absurd hd (by simp)
  · rfl

/-! ### Character-scanning lemmas (comment stripping, trimming, splitting) -/

lemma takeWhile_append_all {p : Char → Bool} {a : List Char} (b : List Char)
    (ha : ∀ c ∈ a, p c = true) : (a ++ b).takeWhile p = a ++ b.takeWhile p := by
  induction a with
  | nil => rfl
  | cons x t ih =>
    have hx : p x = true := ha x (List.mem_cons_self _ _)
    simp [List.takeWhile_cons, hx, ih (fun c hc => ha c (List.mem_cons_of_mem _ hc))]

lemma dropWhile_append_all {p : Char → Bool} {a : List Char} (b : List Char)
    (ha : ∀ c ∈ a, p c = true) : (a ++ b).dropWhile p = b.dropWhile p := by
  induction a with
  | nil => rfl
  | cons x t ih =>
    have hx : p x = true := ha x (List.mem_cons_self _ _)
    simp [List.dropWhile_cons, hx, ih (fun c hc => ha c (List.mem_cons_of_mem _ hc))]

lemma dropWhile_head_not {p : Char → Bool} (l : List Char) :
    l.dropWhile p = [] ∨ ∃ x t, l.dropWhile p = x :: t ∧ p x = false := by
  induction l with
  | nil => exact Or.inl rfl
  | cons a l ih =>
    by_cases h : p a = true
    · simpa [List.dropWhile_cons, h] using ih
    · right
      refine ⟨a, l, ?_, by simpa using h⟩
      simp [List.dropWhile_cons, h]

lemma reverse_dropWhile_head {p : Char → Bool} {x : Char} {t : List Char} :
    ((x :: t).reverse.dropWhile p).reverse = [] ∨
      ∃ t2, ((x :: t).reverse.dropWhile p).reverse = x :: t2 := by
  have hu : x :: t =
      ((x :: t).reverse.dropWhile p).reverse ++ ((x :: t).reverse.takeWhile p).reverse := by
    rw [← List.reverse_append, List.takeWhile_append_dropWhile, List.reverse_reverse]
  cases hv : ((x :: t).reverse.dropWhile p).reverse with
  | nil => exact Or.inl rfl
  | cons y t2 =>
    right
    rw [hv] at hu
    simp only [List.cons_append] at hu
    obtain ⟨h1, h2⟩ := List.cons.inj hu
    exact ⟨t2, by rw [h1]⟩

lemma pyStrip_head {s : List Char} :
    pyStrip s = [] ∨ ∃ x t, pyStrip s = x :: t ∧ isWS x = false := by
  unfold pyStrip
  rcases dropWhile_head_not (p := isWS) s with h | ⟨x, t, h, hx⟩
  · left
    rw [h]
    rfl
  · rw [h]
    rcases reverse_dropWhile_head (p := isWS) (x := x) (t := t) with h2 | ⟨t2, h2⟩
    · exact Or.inl h2
    · exact Or.inr ⟨x, t2, h2, hx⟩

lemma pyStrip_last {s : List Char} :
    pyStrip s = [] ∨ ∃ x t, (pyStrip s).reverse = x :: t ∧ isWS x = false := by
  unfold pyStrip
  rcases dropWhile_head_not (p := isWS) ((s.dropWhile isWS).reverse) with h | ⟨x, t, h, hx⟩
  · left
    rw [h]
    rfl
  · right
    refine ⟨x, t, ?_, hx⟩
    rw [List.reverse_reverse]
    exact h

lemma splitOnce_some_inv {s tok rest : List Char} (h : splitOnce s = some (tok, rest)) :
    tok = s.takeWhile (fun c => !isWS c) ∧
    rest = (s.dropWhile (fun c => !isWS c)).dropWhile isWS ∧
    rest ≠ [] := by
  simp only [splitOnce] at h
  split at h
  · cases h
  next hne =>
    have h3 : s.takeWhile (fun c => !isWS c) = tok :=
      congrArg Prod.fst (Option.some.inj h)
    have h4 : (s.dropWhile (fun c => !isWS c)).dropWhile isWS = rest :=
      congrArg Prod.snd (Option.some.inj h)
    refine ⟨h3.symm, h4.symm, ?_⟩
    rw [← h4]
    simpa [List.isEmpty_iff] using hne

lemma splitOnce_decomp {s tok rest : List Char} (h : splitOnce s = some (tok, rest)) :
    ∃ gap, s = tok ++ gap ++ rest ∧
      (∀ c ∈ tok, isWS c = false) ∧
      gap ≠ [] ∧ (∀ c ∈ gap, isWS c = true) ∧ rest ≠ [] := by
  obtain ⟨htok, hrest, hne⟩ := splitOnce_some_inv h
  refine ⟨(s.dropWhile (fun c => !isWS c)).takeWhile isWS, ?_, ?_, ?_, ?_, hne⟩
  · rw [htok, hrest, List.append_assoc, List.takeWhile_append_dropWhile,
      List.takeWhile_append_dropWhile]
  · intro c hc
    rw [htok] at hc
    have := List.mem_takeWhile_imp hc
    simpa using this
  · rcases dropWhile_head_not (p := fun c => !isWS c) s with h1 | ⟨x, t, h1, hx⟩
    · exfalso
      apply hne
      rw [hrest, h1]
      rfl
    · rw [h1]
      have hxw : isWS x = true := by simpa using hx
      simp [List.takeWhile_cons, hxw]
  · intro c hc
    exact List.mem_takeWhile_imp hc

lemma splitOnce_none_all_nonws {s : List Char}
    (h : splitOnce (pyStrip s) = none) (hne : pyStrip s ≠ []) :
    ∀ c ∈ pyStrip s, isWS c = false := by
  have hrest : ((pyStrip s).dropWhile (fun c => !isWS c)).dropWhile isWS = [] := by
    simp only [splitOnce] at h
    split at h
    next hcond => simpa [List.isEmpty_iff] using hcond
    · cases h
  rcases dropWhile_head_not (p := fun c => !isWS c) (pyStrip s) with h1 | ⟨x, t, h1, hx⟩
  · rw [List.dropWhile_eq_nil_iff] at h1
    intro c hc
    simpa using h1 c hc
  · exfalso
    rw [h1] at hrest
    rw [List.dropWhile_eq_nil_iff] at hrest
    rcases pyStrip_last (s := s) with h2 | ⟨x0, t0, h2, hx0⟩
    · exact hne h2
    · have hdec : pyStrip s =
          (pyStrip s).takeWhile (fun c => !isWS c) ++ (x :: t) := by
        rw [← h1, List.takeWhile_append_dropWhile]
      have hrev : (pyStrip s).reverse =
          (x :: t).reverse ++ ((pyStrip s).takeWhile (fun c => !isWS c)).reverse := by
        conv_lhs => rw [hdec]
        rw [List.reverse_append]
      rcases hxt : (x :: t).reverse with _ | ⟨y, ty⟩
      · have : (x :: t).length = 0 := by rw [← List.length_reverse, hxt]; rfl
        simp at this
      · have hy : y ∈ x :: t := by
          have hmem : y ∈ (x :: t).reverse := by rw [hxt]; exact List.mem_cons_self _ _
          rw [List.mem_reverse] at hmem
          exact hmem
        have hyws : isWS y = true := hrest y hy
        rw [hxt] at hrev
        rw [h2] at hrev
        simp only [List.cons_append] at hrev
        obtain ⟨hxy, _⟩ := List.cons.inj hrev
        rw [hxy] at hx0
        rw [hx0] at hyws
        cases hyws

lemma stripComment_no_hash {pre : List Char} (h : '#' ∉ pre) : stripComment pre = pre := by
  have hall : ∀ c ∈ pre, (c != '#') = true := by
    intro c hc
    simp only [bne_iff_ne, ne_eq]
    exact fun he => h (he ▸ hc)
  unfold stripComment
  calc pre.takeWhile (fun c => c != '#')
      = (pre ++ []).takeWhile (fun c => c != '#') := by rw [List.append_nil]
    _ = pre ++ ([].takeWhile (fun c => c != '#')) := takeWhile_append_all [] hall
    _ = pre := by simp

lemma stripComment_hash (pre post : List Char) (h : '#' ∉ pre) :
    stripComment (pre ++ '#' :: post) = pre := by
  have hall : ∀ c ∈ pre, (c != '#') = true := by
    intro c hc
    simp only [bne_iff_ne, ne_eq]
    exact fun he => h (he ▸ hc)
  unfold stripComment
  rw [takeWhile_append_all _ hall]
  simp [List.takeWhile_cons]

/-! ### Claim C1 -/

/-- C1: for every event with a valid (month, day) and reference date `R`, the
next occurrence is computed as `date(R.year, month, day)`, replaced by
`date(R.year + 1, month, day)` exactly when that first candidate is strictly
before `R`; `days_remaining` is the whole-day difference between the chosen
occurrence and `R`; and when an origin year is present (`year > 0`),
`elapsed_years` (embedded in the description) equals the chosen occurrence's
year minus the origin year. -/
theorem c1_next_occurrence (R : Date) (line : String) (ev : Event)
    (h : parseLine R line = .event ev) :
    ∃ tok rest y m d c,
      splitOnce (pyStrip (stripComment line.data)) = some (tok, rest) ∧
      parseDateToken tok = some (y, m, d) ∧
      mkDate R.year m d = some c ∧
      ((dateLt c R = true ∧ mkDate (R.year + 1) m d = some ev.when) ∨
        (dateLt c R = false ∧ ev.when = c)) ∧
      ev.days = (ord ev.when : Int) - (ord R : Int) ∧
      (0 < y →
        ev.desc = String.mk rest ++ " (" ++ toString ((ev.when.year : Int) - y) ++ ")") := by
  obtain ⟨tok, rest, hs, ht⟩ := parseLine_event_inv h
  obtain ⟨y, m, d, c, htok, hc, hw, hdays, hdesc⟩ := parseTokenRest_event_inv ht
  refine ⟨tok, rest, y, m, d, c, hs, htok, hc, ?_, hdays, ?_⟩
  · by_cases hlt : dateLt c R = true
    · exact Or.inl ⟨hlt, by rw [if_pos hlt] at hw; exact hw⟩
    · have hlt2 : dateLt c R = false := by
        cases hx : dateLt c R
        · rfl
        · exact absurd hx hlt
      refine Or.inr ⟨hlt2, ?_⟩
      rw [if_neg (by rw [hlt2]; simp)] at hw
      exact (Option.some.inj hw).symm
  · intro hy
    rw [hdesc, if_pos hy]

/-- Witness for C1: the line `"2-3-4 Alice"` (full form, origin year 2) at
reference date 0004-05-06; the candidate 0004-03-04 has passed, so the
occurrence rolls to 0005-03-04 and the elapsed-years suffix is `(3)`. -/
theorem c1_next_occurrence_witness :
    ∃ tok rest y m d c,
      splitOnce (pyStrip (stripComment ("2-3-4 Alice").data)) = some (tok, rest) ∧
      parseDateToken tok = some (y, m, d) ∧
      mkDate 4 m d = some c ∧
      ((dateLt c ⟨4, 5, 6⟩ = true ∧ mkDate (4 + 1) m d = some ⟨5, 3, 4⟩) ∨
        (dateLt c ⟨4, 5, 6⟩ = false ∧ (⟨5, 3, 4⟩ : Date) = c)) ∧
      (302 : Int) = (ord ⟨5, 3, 4⟩ : Int) - (ord ⟨4, 5, 6⟩ : Int) ∧
      (0 < y →
        "Alice (3)" = String.mk rest ++ " (" ++ toString (((5 : Nat) : Int) - y) ++ ")") :=
  c1_next_occurrence ⟨4, 5, 6⟩ "2-3-4 Alice" ⟨302, "Alice (3)", ⟨5, 3, 4⟩⟩
    (by decide)

/-! ### Claim C2 -/

/-- C2: every event yielded by `parse` (for any valid reference date and any
successfully parsed line) has `days_remaining` in `[0, 365]`, and its next
occurrence is on or after the reference date. -/
theorem c2_days_remaining_invariant (R : Date) (lines : List String) (ev : Event)
    (hR : validDate R.year R.month R.day = true)
    (hev : ev ∈ (parse R lines).1) :
    0 ≤ ev.days ∧ ev.days ≤ 365 ∧ dateLt ev.when R = false := by
  obtain ⟨l, hmem, hl⟩ := parseFrom_events_mem hev
  obtain ⟨tok, rest, hs, ht⟩ := parseLine_event_inv hl
  obtain ⟨y, m, d, c, htok, hc, hw, hdays, hdesc⟩ := parseTokenRest_event_inv ht
  obtain ⟨h1, h2, h3⟩ := occurrence_bounds hR hc hw
  rw [hdays]
  exact ⟨by omega, h2, h3⟩

/-- Witness for C2: the event parsed from `"3-4 Bob"` at reference date
0004-01-01 (63 days remaining, year 4 being a leap year). -/
theorem c2_days_remaining_invariant_witness :
    (0 : Int) ≤ 63 ∧ (63 : Int) ≤ 365 ∧ dateLt ⟨4, 3, 4⟩ ⟨4, 1, 1⟩ = false :=
  c2_days_remaining_invariant ⟨4, 1, 1⟩ ["3-4 Bob"] ⟨63, "Bob", ⟨4, 3, 4⟩⟩
    (by decide) (by decide)

/-! ### Claim C9 -/

/-- C9 (implicit): a syntactically valid Feb-29 date token is not handled as
a leap-day recurrence but falls into the generic parse-error path: the
`datetime.date` construction fails whenever the chosen year is not a leap
year — when the reference year is non-leap the first candidate fails, and
when the reference-year Feb 29 is before the reference date the rolled year
(necessarily non-leap) fails — so the line is recorded as a date-construction
parse error and the whole load fails with
`SystemExit('Error parsing input file.')`. -/
theorem c9_feb29_error (R : Date) (lines : List String) (l : String)
    (tok rest : List Char) (y : Int)
    (hmem : l ∈ lines)
    (hs : splitOnce (pyStrip (stripComment l.data)) = some (tok, rest))
    (htok : parseDateToken tok = some (y, 2, 29))
    (hR : validDate R.year R.month R.day = true)
    (hcond : isLeap R.year = false ∨ dateLt ⟨R.year, 2, 29⟩ R = true) :
    parseLine R l =
      .error (.badDate (if isLeap R.year then R.year + 1 else R.year) 2 29) ∧
    loadEvents R lines = .error "Error parsing input file." := by
  have hvR := (validDate_iff _ _ _).mp hR
  have hne : pyStrip (stripComment l.data) ≠ [] := by
    intro h0
    rw [h0] at hs
    exact absurd hs (by simp [splitOnce])
  have hpl : parseLine R l = parseTokenRest R tok rest := by
    simp only [parseLine]
    rw [if_neg (by simpa [List.isEmpty_iff] using hne), hs]
  have herr : parseTokenRest R tok rest =
      .error (.badDate (if isLeap R.year then R.year + 1 else R.year) 2 29) := by
    cases hL : isLeap R.year with
    | false =>
      have hdim : daysInMonth R.year 2 = 28 := by simp [daysInMonth, hL]
      have hmk : mkDate R.year 2 29 = none := by
        unfold mkDate
        rw [if_neg]
        intro hv
        have := (validDate_iff _ _ _).mp hv
        omega
      simp only [parseTokenRest, htok, hmk]
      simp
    | true =>
      have hlt : dateLt ⟨R.year, 2, 29⟩ R = true := by
        rcases hcond with h | h
        · rw [hL] at h; exact absurd h (by simp)
        · exact h
      have hdim : daysInMonth R.year 2 = 29 := by simp [daysInMonth, hL]
      have hmk : mkDate R.year 2 29 = some ⟨R.year, 2, 29⟩ := by
        unfold mkDate
        rw [if_pos]
        exact (validDate_iff _ _ _).mpr ⟨hvR.1, hvR.2.1, by omega, by omega, by omega, by omega⟩
      have hL1 : isLeap (R.year + 1) = false := isLeap_succ _ hL
      have hdim1 : daysInMonth (R.year + 1) 2 = 28 := by simp [daysInMonth, hL1]
      have hmk1 : mkDate (R.year + 1) 2 29 = none := by
        unfold mkDate
        rw [if_neg]
        intro hv
        have := (validDate_iff _ _ _).mp hv
        omega
      simp only [parseTokenRest, htok, hmk, hlt, hmk1]
      simp
  refine ⟨hpl.trans herr, ?_⟩
  exact loadEvents_error_of_mem hmem (hpl.trans herr)

/-- Witness for C9: the file `["2-29 Carl"]` at reference date 0005-01-01
(year 5 is not a leap year). -/
theorem c9_feb29_error_witness :
    parseLine ⟨5, 1, 1⟩ "2-29 Carl" =
      .error (.badDate (if isLeap 5 then 5 + 1 else 5) 2 29) ∧
    loadEvents ⟨5, 1, 1⟩ ["2-29 Carl"] = .error "Error parsing input file." :=
  c9_feb29_error ⟨5, 1, 1⟩ ["2-29 Carl"] "2-29 Carl" "2-29".data "Carl".data (-1)
    (by decide) (by decide) (by decide) (by decide) (Or.inl (by decide))

/-! ### Claim C10 -/

/-- C10 (implicit): in summary mode the projection reference date is the
first day of the target (year, month), so a successfully parsed event's next
occurrence falls in the target year and month (the summary-mode selection)
exactly when the event's parsed month equals the target month — independent
of the parsed day and origin year, and never excluded by the target year. -/
theorem c10_summary_selection (year month : Nat) (line : String) (ev : Event)
    (tok rest : List Char) (y : Int) (m d : Nat)
    (hv : validDate year month 1 = true)
    (hs : splitOnce (pyStrip (stripComment line.data)) = some (tok, rest))
    (htok : parseDateToken tok = some (y, m, d))
    (hev : parseLine ⟨year, month, 1⟩ line = .event ev) :
    summarySelect year month ev = true ↔ m = month := by
  obtain ⟨tok2, rest2, hs2, ht2⟩ := parseLine_event_inv hev
  rw [hs] at hs2
  have hpq := Option.some.inj hs2
  have htk : tok = tok2 := congrArg Prod.fst hpq
  subst htk
  obtain ⟨y2, m2, d2, c, htok2, hc, hw, hdays, hdesc⟩ := parseTokenRest_event_inv ht2
  rw [htok] at htok2
  have h3 := Option.some.inj htok2
  have hm : m = m2 := congrArg (fun p => p.2.1) h3
  have hd : d = d2 := congrArg (fun p => p.2.2) h3
  subst hm
  subst hd
  obtain ⟨hceq, hcv⟩ := mkDate_some_inv hc
  subst hceq
  have hvc := (validDate_iff _ _ _).mp hcv
  by_cases hlt : dateLt ⟨year, m, d⟩ (⟨year, month, 1⟩ : Date) = true
  · rw [if_pos hlt] at hw
    obtain ⟨hwhen, hwv⟩ := mkDate_some_inv hw
    have hne : m ≠ month := by
      rw [dateLt_iff] at hlt
      simp only at hlt
      omega
    constructor
    · intro hsel
      unfold summarySelect at hsel
      rw [hwhen] at hsel
      simp at hsel
    · intro hmm
      exact absurd hmm hne
  · have hlt2 : dateLt ⟨year, m, d⟩ (⟨year, month, 1⟩ : Date) = false := by
      cases hx : dateLt ⟨year, m, d⟩ (⟨year, month, 1⟩ : Date)
      · rfl
      · exact absurd hx hlt
    rw [if_neg (by rw [hlt2]; simp)] at hw
    have hwhen : ev.when = ⟨year, m, d⟩ := (Option.some.inj hw).symm
    unfold summarySelect
    rw [hwhen]
    simp

/-- Witness for C10: the line `"6-15 Bob"` against target month 0004-06. -/
theorem c10_summary_selection_witness :
    summarySelect 4 6 ⟨14, "Bob", ⟨4, 6, 15⟩⟩ = true ↔ 6 = 6 :=
  c10_summary_selection 4 6 "6-15 Bob" ⟨14, "Bob", ⟨4, 6, 15⟩⟩ "6-15".data "Bob".data
    (-1) 6 15 (by decide) (by decide) (by decide) (by decide)

/-! ### Claim C6 -/

/-- C6: in list mode the rendered relative-time phrase is exactly `"today"`
when `days_remaining` is 0, `"tomorrow"` when it is 1, and `"in N days"`
otherwise, with the literal next-occurrence date appended in parentheses if
and only if `N ≥ 3` (so an event 2 days out gets no parenthesized date). -/
theorem c6_relative_phrase (days : Int) (desc : String) (w : Date) :
    (days = 0 → describe days desc w = desc ++ " " ++ "today") ∧
    (days = 1 → describe days desc w = desc ++ " " ++ "tomorrow") ∧
    (days ≠ 0 → days ≠ 1 →
      describe days desc w =
        desc ++ " " ++
          ("in " ++ toString days ++ " days" ++
            (if 3 ≤ days then " (" ++ formatDate w ++ ")" else ""))) ∧
    (days = 2 → describe days desc w = desc ++ " " ++ ("in " ++ toString days ++ " days")) := by
  refine ⟨fun h => ?_, fun h => ?_, fun h1 h2 => ?_, fun h => ?_⟩
  · rw [h]; rfl
  · rw [h]; rfl
  · unfold describe
    rw [if_neg h1, if_neg h2]
  · subst h
    rfl

/-- Witness for C6 at 2 days out: no parenthesized date. -/
theorem c6_relative_phrase_witness :
    ((2 : Int) = 0 → describe 2 "Bob" ⟨4, 3, 4⟩ = "Bob" ++ " " ++ "today") ∧
    ((2 : Int) = 1 → describe 2 "Bob" ⟨4, 3, 4⟩ = "Bob" ++ " " ++ "tomorrow") ∧
    ((2 : Int) ≠ 0 → (2 : Int) ≠ 1 →
      describe 2 "Bob" ⟨4, 3, 4⟩ =
        "Bob" ++ " " ++
          ("in " ++ toString (2 : Int) ++ " days" ++
            (if 3 ≤ (2 : Int) then " (" ++ formatDate ⟨4, 3, 4⟩ ++ ")" else ""))) ∧
    ((2 : Int) = 2 →
      describe 2 "Bob" ⟨4, 3, 4⟩ = "Bob" ++ " " ++ ("in " ++ toString (2 : Int) ++ " days")) :=
  c6_relative_phrase 2 "Bob" ⟨4, 3, 4⟩

/-! ### Claim C7 -/

/-- C7: in list mode, when one or more explicit day-offsets are given exactly
the events whose `days_remaining` is in that set are kept, and when none are
given all events are kept; the kept events are sorted ascending by
`days_remaining`; and when a positive limit is given the output is truncated
to the first `limit` events. -/
theorem c7_list_mode (R : Date) (lines : List String) (advance : List Int) (limit : Int)
    (evs : List Event) (h : loadEvents R lines = .ok evs) :
    (∀ e, e ∈ evs.filter (listSelect advance) ↔
        e ∈ evs ∧ (advance = [] ∨ e.days ∈ advance)) ∧
    List.Perm (List.insertionSort daysLe (evs.filter (listSelect advance)))
      (evs.filter (listSelect advance)) ∧
    List.Sorted daysLe (List.insertionSort daysLe (evs.filter (listSelect advance))) ∧
    (0 < limit →
      ((List.insertionSort daysLe (evs.filter (listSelect advance))).take limit.toNat).length
        ≤ limit.toNat) ∧
    (runList R lines advance limit).1 =
      (if 0 < limit then
          (List.insertionSort daysLe (evs.filter (listSelect advance))).take limit.toNat
        else List.insertionSort daysLe (evs.filter (listSelect advance))).map
        (fun e => describe e.days e.desc e.when) := by
  refine ⟨?_, List.perm_insertionSort daysLe _, List.sorted_insertionSort daysLe _,
    fun _ => ?_, ?_⟩
  · intro e
    simp [List.mem_filter, listSelect, List.isEmpty_iff]
  · simp [List.length_take]
  · simp only [runList, h]

/-- Witness for C7: two events, offsets `[1]`, limit 0. -/
theorem c7_list_mode_witness :
    (∀ e, e ∈ (parse (⟨4, 1, 1⟩ : Date) ["3-4 Bob", "1-2 Al"]).1.filter (listSelect [1]) ↔
        e ∈ (parse (⟨4, 1, 1⟩ : Date) ["3-4 Bob", "1-2 Al"]).1 ∧
          (([1] : List Int) = [] ∨ e.days ∈ ([1] : List Int))) ∧
    List.Perm
      (List.insertionSort daysLe
        ((parse (⟨4, 1, 1⟩ : Date) ["3-4 Bob", "1-2 Al"]).1.filter (listSelect [1])))
      ((parse (⟨4, 1, 1⟩ : Date) ["3-4 Bob", "1-2 Al"]).1.filter (listSelect [1])) ∧
    List.Sorted daysLe
      (List.insertionSort daysLe
        ((parse (⟨4, 1, 1⟩ : Date) ["3-4 Bob", "1-2 Al"]).1.filter (listSelect [1]))) ∧
    (0 < (0 : Int) →
      ((List.insertionSort daysLe
          ((parse (⟨4, 1, 1⟩ : Date) ["3-4 Bob", "1-2 Al"]).1.filter
            (listSelect [1]))).take (0 : Int).toNat).length ≤ (0 : Int).toNat) ∧
    (runList ⟨4, 1, 1⟩ ["3-4 Bob", "1-2 Al"] [1] 0).1 =
      (if 0 < (0 : Int) then
          (List.insertionSort daysLe
            ((parse (⟨4, 1, 1⟩ : Date) ["3-4 Bob", "1-2 Al"]).1.filter
              (listSelect [1]))).take (0 : Int).toNat
        else
          List.insertionSort daysLe
            ((parse (⟨4, 1, 1⟩ : Date) ["3-4 Bob", "1-2 Al"]).1.filter
              (listSelect [1]))).map (fun e => describe e.days e.desc e.when) :=
  c7_list_mode ⟨4, 1, 1⟩ ["3-4 Bob", "1-2 Al"] [1] 0
    (parse (⟨4, 1, 1⟩ : Date) ["3-4 Bob", "1-2 Al"]).1 rfl

/-! ### Claim C8 -/

/-- C8: in summary mode, when zero events match the target (year, month),
exactly one line is printed and it reads `No events in <year>-<month>` (month
zero-padded to two digits); when events match, each is rendered as its
occurrence date followed by `": "` and the description, sorted ascending by
date. -/
theorem c8_summary_output (year month : Nat) (lines : List String) (evs : List Event)
    (h : loadEvents ⟨year, month, 1⟩ lines = .ok evs) :
    (evs.filter (summarySelect year month) = [] →
      (runSummary year month lines).1 =
        ["No events in " ++ toString year ++ "-" ++ pad2 month]) ∧
    (evs.filter (summarySelect year month) ≠ [] →
      (runSummary year month lines).1 =
        (List.insertionSort whenLe (evs.filter (summarySelect year month))).map
          (fun e => formatDate e.when ++ ": " ++ e.desc)) ∧
    List.Perm (List.insertionSort whenLe (evs.filter (summarySelect year month)))
      (evs.filter (summarySelect year month)) ∧
    List.Sorted whenLe (List.insertionSort whenLe (evs.filter (summarySelect year month))) := by
  refine ⟨fun hnil => ?_, fun hne => ?_, List.perm_insertionSort whenLe _,
    List.sorted_insertionSort whenLe _⟩
  · simp only [runSummary, h]
    rw [if_pos (List.isEmpty_iff.mpr hnil)]
    rfl
  · simp only [runSummary, h]
    rw [if_neg (by simpa [List.isEmpty_iff] using hne)]

/-- Witness for C8: one event outside the target month 0004-06. -/
theorem c8_summary_output_witness :
    ((parse (⟨4, 6, 1⟩ : Date) ["3-4 Bob"]).1.filter (summarySelect 4 6) = [] →
      (runSummary 4 6 ["3-4 Bob"]).1 =
        ["No events in " ++ toString (4 : Nat) ++ "-" ++ pad2 6]) ∧
    ((parse (⟨4, 6, 1⟩ : Date) ["3-4 Bob"]).1.filter (summarySelect 4 6) ≠ [] →
      (runSummary 4 6 ["3-4 Bob"]).1 =
        (List.insertionSort whenLe
          ((parse (⟨4, 6, 1⟩ : Date) ["3-4 Bob"]).1.filter (summarySelect 4 6))).map
          (fun e => formatDate e.when ++ ": " ++ e.desc)) ∧
    List.Perm
      (List.insertionSort whenLe ((parse (⟨4, 6, 1⟩ : Date) ["3-4 Bob"]).1.filter
        (summarySelect 4 6)))
      ((parse (⟨4, 6, 1⟩ : Date) ["3-4 Bob"]).1.filter (summarySelect 4 6)) ∧
    List.Sorted whenLe
      (List.insertionSort whenLe
        ((parse (⟨4, 6, 1⟩ : Date) ["3-4 Bob"]).1.filter (summarySelect 4 6))) :=
  c8_summary_output 4 6 ["3-4 Bob"] (parse (⟨4, 6, 1⟩ : Date) ["3-4 Bob"]).1 rfl

/-! ### Claim C3 -/

/-- C3: loading a file reports every malformed line together with its 1-based
line number; the load fails (and the mode's exit status is non-zero) exactly
when at least one line failed to parse; when no line fails the exit status is
zero, including when no events match the query; and no partial event list is
ever used to produce output after a failed load (the post-diagnostic output
is empty). -/
theorem c3_load_error_handling (R : Date) (lines : List String) (advance : List Int)
    (limit : Int) (year month : Nat) :
    (∀ (i : Nat) (hi : i < lines.length) (e : ParseErr),
      parseLine R (lines.get ⟨i, hi⟩) = .error e → (1 + i, e) ∈ (parse R lines).2) ∧
    ((runList R lines advance limit).2 = 0 ↔ (parse R lines).2 = []) ∧
    ((parse R lines).2 ≠ [] → (runList R lines advance limit).1 = []) ∧
    ((runSummary year month lines).2 = 0 ↔ (parse ⟨year, month, 1⟩ lines).2 = []) ∧
    ((parse ⟨year, month, 1⟩ lines).2 ≠ [] → (runSummary year month lines).1 = []) ∧
    ((parse R lines).2 = [] ↔ ∀ l ∈ lines, ∀ e, parseLine R l ≠ .error e) := by
  refine ⟨?_, ?_, ?_, ?_, ?_, ?_⟩
  · intro i hi e he
    exact parseFrom_diag_of_error hi he
  · cases hl : loadEvents R lines with
    | error s =>
      simp only [runList, hl]
      constructor
      · intro h0
        exact absurd h0 (by norm_num)
      · intro h2
        obtain ⟨evs, hevs⟩ := (loadEvents_ok_iff).mpr h2
        rw [hevs] at hl
        cases hl
    | ok evs =>
      simp only [runList, hl]
      constructor
      · intro _
        exact (loadEvents_ok_iff).mp ⟨evs, hl⟩
      · intro _
        trivial
  · intro hne
    have herr := loadEvents_error_of_diag hne
    simp [runList, herr]
  · cases hl : loadEvents (⟨year, month, 1⟩ : Date) lines with
    | error s =>
      simp only [runSummary, hl]
      constructor
      · intro h0
        exact absurd h0 (by norm_num)
      · intro h2
        obtain ⟨evs, hevs⟩ := (loadEvents_ok_iff).mpr h2
        rw [hevs] at hl
        cases hl
    | ok evs =>
      simp only [runSummary, hl]
      constructor
      · intro _
        exact (loadEvents_ok_iff).mp ⟨evs, hl⟩
      · intro _
        trivial
  · intro hne
    have herr := loadEvents_error_of_diag hne
    simp [runSummary, herr]
  · constructor
    · intro h2 l hl e he
      obtain ⟨i, hget⟩ := List.mem_iff_get.mp hl
      have he2 : parseLine R (lines.get i) = .error e := by rw [hget]; exact he
      have hd : (1 + i.1, e) ∈ (parse R lines).2 := parseFrom_diag_of_error i.2 he2
      rw [h2] at hd
      exact absurd hd (by simp)
    · intro h2
      cases hd : (parse R lines).2 with
      | nil => rfl
      | cons p rest =>
        exfalso
        have hp : p ∈ (parse R lines).2 := by rw [hd]; exact List.mem_cons_self _ _
        obtain ⟨l, hl, he⟩ := parseFrom_diag_sound hp
        exact h2 l hl p.2 he

/-- Witness for C3: a file whose only line is malformed; the diagnostic for
line 1 is collected and both modes fail with empty output. -/
theorem c3_load_error_handling_witness :
    (1 + 0, ParseErr.malformedDate "xx") ∈ (parse (⟨4, 1, 1⟩ : Date) ["xx yy"]).2 ∧
    (runList ⟨4, 1, 1⟩ ["xx yy"] [] 0).1 = [] ∧
    ¬((runList ⟨4, 1, 1⟩ ["xx yy"] [] 0).2 = 0) :=
  have h := c3_load_error_handling ⟨4, 1, 1⟩ ["xx yy"] [] 0 4 6
  ⟨h.1 0 (by decide) (ParseErr.malformedDate "xx") (by decide),
    h.2.2.1 (by decide),
    fun h0 => absurd (h.2.1.mp h0) (by decide)⟩

/-! ### Claim C5 -/

/-- C5: for every input line, all text from the first `'#'` character to end
of line is removed first; lines that are empty or whitespace-only after that
are skipped producing no event and no error; every remaining line splits into
a first whitespace-delimited token (the date spec) and the non-empty
remainder (the description); and a line that cannot be split this way
(no whitespace at all remains) is recorded as a parse error. -/
theorem c5_line_handling (R : Date) (pre post line : String) :
    ('#' ∉ pre.data → parseLine R (pre ++ "#" ++ post) = parseLine R pre) ∧
    (pyStrip (stripComment line.data) = [] → parseLine R line = .skip) ∧
    (splitOnce (pyStrip (stripComment line.data)) = none →
      pyStrip (stripComment line.data) ≠ [] →
      parseLine R line = .error .unpack ∧
        ∀ c ∈ pyStrip (stripComment line.data), isWS c = false) ∧
    (∀ tok rest, splitOnce (pyStrip (stripComment line.data)) = some (tok, rest) →
      parseLine R line = parseTokenRest R tok rest ∧
      tok ≠ [] ∧ rest ≠ [] ∧
      ∃ gap, pyStrip (stripComment line.data) = tok ++ gap ++ rest ∧
        (∀ c ∈ tok, isWS c = false) ∧ gap ≠ [] ∧ (∀ c ∈ gap, isWS c = true)) := by
  refine ⟨?_, ?_, ?_, ?_⟩
  · intro hpre
    have hdata : (pre ++ "#" ++ post).data = pre.data ++ '#' :: post.data := by
      rw [String.data_append, String.data_append, List.append_assoc]
      rfl
    simp only [parseLine]
    rw [hdata, stripComment_hash _ _ hpre, stripComment_no_hash hpre]
  · intro h
    simp only [parseLine]
    rw [h]
    rfl
  · intro hnone hne
    constructor
    · simp only [parseLine]
      rw [if_neg (by simpa [List.isEmpty_iff] using hne), hnone]
    · exact splitOnce_none_all_nonws hnone hne
  · intro tok rest hsplit
    have hne : pyStrip (stripComment line.data) ≠ [] := by
      intro h0
      rw [h0] at hsplit
      exact absurd hsplit (by simp [splitOnce])
    refine ⟨?_, ?_, ?_, ?_⟩
    · simp only [parseLine]
      rw [if_neg (by simpa [List.isEmpty_iff] using hne), hsplit]
    · obtain ⟨htok, h5, h6⟩ := splitOnce_some_inv hsplit
      rcases pyStrip_head (s := stripComment line.data) with h0 | ⟨x, t, h0, hx⟩
      · exact absurd h0 hne
      · rw [htok, h0]
        simp [List.takeWhile_cons, hx]
    · exact (splitOnce_some_inv hsplit).2.2
    · obtain ⟨gap, hdec, htokws, hgapne, hgapws, h7⟩ := splitOnce_decomp hsplit
      exact ⟨gap, hdec, htokws, hgapne, hgapws⟩

/-- Witness for C5: the line `"1-2  Al Bo"` (with a comment appended through
`pre`/`post`). -/
theorem c5_line_handling_witness :
    ('#' ∉ ("1-2  Al Bo").data →
      parseLine ⟨4, 1, 1⟩ ("1-2  Al Bo" ++ "#" ++ " comment") = parseLine ⟨4, 1, 1⟩ "1-2  Al Bo") ∧
    (pyStrip (stripComment ("1-2  Al Bo").data) = [] →
      parseLine ⟨4, 1, 1⟩ "1-2  Al Bo" = .skip) ∧
    (splitOnce (pyStrip (stripComment ("1-2  Al Bo").data)) = none →
      pyStrip (stripComment ("1-2  Al Bo").data) ≠ [] →
      parseLine ⟨4, 1, 1⟩ "1-2  Al Bo" = .error .unpack ∧
        ∀ c ∈ pyStrip (stripComment ("1-2  Al Bo").data), isWS c = false) ∧
    (∀ tok rest, splitOnce (pyStrip (stripComment ("1-2  Al Bo").data)) = some (tok, rest) →
      parseLine ⟨4, 1, 1⟩ "1-2  Al Bo" = parseTokenRest ⟨4, 1, 1⟩ tok rest ∧
      tok ≠ [] ∧ rest ≠ [] ∧
      ∃ gap, pyStrip (stripComment ("1-2  Al Bo").data) = tok ++ gap ++ rest ∧
        (∀ c ∈ tok, isWS c = false) ∧ gap ≠ [] ∧ (∀ c ∈ gap, isWS c = true)) :=
  c5_line_handling ⟨4, 1, 1⟩ "1-2  Al Bo" " comment" "1-2  Al Bo"

/-! ### Regex-shape lemmas: the matchers accept exactly the prefix shapes -/

lemma digits_split {a : List Char} (r : List Char) (ha : allDigits a = true) :
    (a ++ '-' :: r).takeWhile Char.isDigit = a ∧
    (a ++ '-' :: r).dropWhile Char.isDigit = '-' :: r := by
  have hall : ∀ c ∈ a, Char.isDigit c = true := by
    rw [allDigits, List.all_eq_true] at ha
    exact ha
  constructor
  · rw [takeWhile_append_all _ hall]
    simp [List.takeWhile_cons]
  · rw [dropWhile_append_all _ hall]
    simp [List.dropWhile_cons]

lemma matchYMD_some_shape {s : List Char} (h : (matchYMD s).isSome = true) :
    ymdShape s := by
  simp only [matchYMD] at h
  split at h
  case isFalse => simp at h
  case isTrue hlen =>
    split at h
    case h_2 => simp at h
    case h_1 r2 heq1 =>
      split at h
      case isFalse => simp at h
      case isTrue hlen2 =>
        split at h
        case h_2 => simp at h
        case h_1 r4 heq2 =>
          split at h
          case isFalse => simp at h
          case isTrue hlen3 =>
            cases hr4 : r4 with
            | nil =>
              rw [hr4] at hlen3
              simp at hlen3
            | cons c0 rest0 =>
              by_cases hc0 : c0.isDigit = true
              · refine ⟨s.takeWhile Char.isDigit, r2.takeWhile Char.isDigit, c0, rest0,
                  ?_, List.all_eq_true.mpr (fun c hc => List.mem_takeWhile_imp hc),
                  hlen.1, hlen.2,
                  List.all_eq_true.mpr (fun c hc => List.mem_takeWhile_imp hc),
                  hlen2.1, hlen2.2, hc0⟩
                conv_lhs => rw [← List.takeWhile_append_dropWhile (p := Char.isDigit) (l := s)]
                rw [heq1]
                congr 1
                conv_lhs => rw [← List.takeWhile_append_dropWhile (p := Char.isDigit) (l := r2)]
                rw [heq2, hr4]
              · rw [hr4] at hlen3
                simp [List.takeWhile_cons, hc0] at hlen3

lemma shape_matchYMD {s : List Char} (h : ymdShape s) : (matchYMD s).isSome = true := by
  obtain ⟨a, b, c, rest, hs, ha, ha1, ha4, hb, hb1, hb2, hc⟩ := h
  subst hs
  have h1 := digits_split (b ++ '-' :: (c :: rest)) ha
  have h2 := digits_split (c :: rest) hb
  simp only [matchYMD, h1.1, h1.2, if_pos (And.intro ha1 ha4), h2.1, h2.2,
    if_pos (And.intro hb1 hb2)]
  simp [List.takeWhile_cons, hc]

lemma matchMD_some_shape {s : List Char} (h : (matchMD s).isSome = true) :
    mdShape s := by
  simp only [matchMD] at h
  split at h
  case isFalse => simp at h
  case isTrue hlen =>
    split at h
    case h_2 => simp at h
    case h_1 r2 heq1 =>
      split at h
      case isFalse => simp at h
      case isTrue hlen2 =>
        cases hr2 : r2 with
        | nil =>
          rw [hr2] at hlen2
          simp at hlen2
        | cons c0 rest0 =>
          by_cases hc0 : c0.isDigit = true
          · refine ⟨s.takeWhile Char.isDigit, c0, rest0, ?_,
              List.all_eq_true.mpr (fun c hc => List.mem_takeWhile_imp hc),
              hlen.1, hlen.2, hc0⟩
            conv_lhs => rw [← List.takeWhile_append_dropWhile (p := Char.isDigit) (l := s)]
            rw [heq1, hr2]
          · rw [hr2] at hlen2
            simp [List.takeWhile_cons, hc0] at hlen2

lemma shape_matchMD {s : List Char} (h : mdShape s) : (matchMD s).isSome = true := by
  obtain ⟨a, c, rest, hs, ha, ha1, ha2, hc⟩ := h
  subst hs
  have h1 := digits_split (c :: rest) ha
  simp only [matchMD, h1.1, h1.2, if_pos (And.intro ha1 ha2)]
  simp [List.takeWhile_cons, hc]

lemma parseDateToken_none_iff (tok : List Char) :
    parseDateToken tok = none ↔ ¬ ymdShape tok ∧ ¬ mdShape tok := by
  unfold parseDateToken
  constructor
  · intro h
    cases hy : matchYMD tok with
    | some v =>
      obtain ⟨y, m, d⟩ := v
      rw [hy] at h
      simp at h
    | none =>
      rw [hy] at h
      cases hmd : matchMD tok with
      | some v =>
        obtain ⟨m, d⟩ := v
        rw [hmd] at h
        simp at h
      | none =>
        constructor
        · intro hshape
          have h2 := shape_matchYMD hshape
          rw [hy] at h2
          simp at h2
        · intro hshape
          have h2 := shape_matchMD hshape
          rw [hmd] at h2
          simp at h2
  · rintro ⟨h1, h2⟩
    cases hy : matchYMD tok with
    | some v => exact absurd (matchYMD_some_shape (by rw [hy]; rfl)) h1
    | none =>
      cases hmd : matchMD tok with
      | some v => exact absurd (matchMD_some_shape (by rw [hmd]; rfl)) h2
      | none => simp [hy, hmd]

lemma parseDateToken_of_ymd {tok : List Char} (h : ymdShape tok) :
    ∃ y m d : Nat, parseDateToken tok = some ((y : Int), m, d) := by
  have h2 := shape_matchYMD h
  unfold parseDateToken
  cases hy : matchYMD tok with
  | none =>
    rw [hy] at h2
    simp at h2
  | some v =>
    obtain ⟨y, m, d⟩ := v
    exact ⟨y, m, d, by simp⟩

lemma parseDateToken_of_md {tok : List Char} (h1 : ¬ ymdShape tok) (h2 : mdShape tok) :
    ∃ m d : Nat, parseDateToken tok = some (-1, m, d) := by
  have h3 := shape_matchMD h2
  unfold parseDateToken
  cases hy : matchYMD tok with
  | some v => exact absurd (matchYMD_some_shape (by rw [hy]; rfl)) h1
  | none =>
    cases hmd : matchMD tok with
    | none =>
      rw [hmd] at h3
      simp at h3
    | some v =>
      obtain ⟨m, d⟩ := v
      exact ⟨m, d, by simp⟩

/-! ### Claim C4 -/

/-- C4 counterexample: the token `"1-2-3x"` is of neither exact form
(`YEAR-MONTH-DAY` with the whole token consumed, nor `MONTH-DAY`), yet
`re.match` accepts its prefix `1-2-3` as the full form, so parsing yields an
event rather than the malformed-date error the claim requires for "every
token of any other shape". -/
theorem c4_date_token_counterexample :
    exactYMD "1-2-3x" = false ∧ exactMD "1-2-3x" = false ∧
    parseDateToken ("1-2-3x").data = some (1, 2, 3) ∧
    parseLine ⟨4, 1, 1⟩ "1-2-3x Bob" = .event ⟨33, "Bob (3)", ⟨4, 2, 3⟩⟩ :=
  ⟨by decide, by decide, by decide, by decide⟩

/-- C4 (amended): the date token is accepted exactly when a PREFIX of it
matches the full form `YEAR-MONTH-DAY` (year 1–4 digits, month/day 1–2
digits) or, as fallback, a prefix matches the recurring form `MONTH-DAY`
(1–2 digits each); the full form is tried first (a token with a full-form
prefix always takes the origin-year branch, with a non-negative year); and
for every token with no such prefix, parsing yields a malformed-date error
whose report includes the offending token text. -/
theorem c4_date_token_format (tok rest : List Char) (R : Date) :
    (ymdShape tok →
      ∃ y m d : Nat, parseDateToken tok = some ((y : Int), m, d) ∧ (0 : Int) ≤ (y : Int)) ∧
    (¬ ymdShape tok → mdShape tok →
      ∃ m d : Nat, parseDateToken tok = some (-1, m, d)) ∧
    (¬ ymdShape tok → ¬ mdShape tok →
      parseDateToken tok = none ∧
      parseTokenRest R tok rest = .error (.malformedDate (String.mk tok)) ∧
      renderErr (.malformedDate (String.mk tok)) =
        "Malformed date: \"" ++ String.mk tok ++ "\"") := by
  refine ⟨?_, ?_, ?_⟩
  · intro h
    obtain ⟨y, m, d, he⟩ := parseDateToken_of_ymd h
    exact ⟨y, m, d, he, Int.natCast_nonneg y⟩
  · intro h1 h2
    exact parseDateToken_of_md h1 h2
  · intro h1 h2
    have hnone : parseDateToken tok = none := (parseDateToken_none_iff tok).mpr ⟨h1, h2⟩
    refine ⟨hnone, ?_, rfl⟩
    simp only [parseTokenRest, hnone]

/-- Witness for C4 (amended): the token `"1990-05-17"`. -/
theorem c4_date_token_format_witness :
    (ymdShape ("1990-05-17").data →
      ∃ y m d : Nat,
        parseDateToken ("1990-05-17").data = some ((y : Int), m, d) ∧ (0 : Int) ≤ (y : Int)) ∧
    (¬ ymdShape ("1990-05-17").data → mdShape ("1990-05-17").data →
      ∃ m d : Nat, parseDateToken ("1990-05-17").data = some (-1, m, d)) ∧
    (¬ ymdShape ("1990-05-17").data → ¬ mdShape ("1990-05-17").data →
      parseDateToken ("1990-05-17").data = none ∧
      parseTokenRest ⟨4, 1, 1⟩ ("1990-05-17").data ("Alice").data =
        .error (.malformedDate (String.mk ("1990-05-17").data)) ∧
      renderErr (.malformedDate (String.mk ("1990-05-17").data)) =
        "Malformed date: \"" ++ String.mk ("1990-05-17").data ++ "\"") :=
  c4_date_token_format ("1990-05-17").data ("Alice").data ⟨4, 1, 1⟩

end Birthday
